import Mathlib

/-!
Shallow embedding of `src/m3u_weaver.py` (class `MusicPlaylistManager`):
the interactive selection/paging state machine (`handle_input`), the search
filter (`search_music` / `clear_search` / `search_input`), the playlist
membership index (`load_existing_playlist` / `is_song_in_playlist`) and the
exporter (`save_playlist`).

Python `int` values that stay non-negative in the source (cursor, page) are
modelled as `Nat`; the Python comparisons against possibly negative bounds
(`cursor < len - 1`, `page < total_pages - 1`) coincide with truncated `Nat`
subtraction here because the compared value is always non-negative.  Files
are modelled as lists of lines (each Python `f.write(line + "\n")` appends
one list element).  Python string primitives (`strip`, `lower`,
`startswith`, `in`, `replace`, `pathlib` name/as_posix) are implemented on
character lists by structural recursion so every definition evaluates.
-/

namespace M3uWeaver

/-- True exactly when the first list is an initial segment of the second (support
for the Python substring / startswith tests). -/
def listPref : List Char → List Char → Bool
  | [], _ => true
  | _ :: _, [] => false
  | a :: as, b :: bs => a == b && listPref as bs

/-- The Python `needle in hay` substring test on strings. -/
def strContains (hay needle : String) : Bool :=
  (List.range (hay.data.length + 1)).any fun i => listPref needle.data (hay.data.drop i)

/-- The Python `s.strip()` operation (drop whitespace from both ends). -/
def strTrim (s : String) : String :=
  ⟨((s.data.dropWhile Char.isWhitespace).reverse.dropWhile Char.isWhitespace).reverse⟩

/-- The Python `s.lower()` operation. -/
def strLower (s : String) : String :=
  ⟨s.data.map Char.toLower⟩

/-- The Python `s.startswith(pre)` test. -/
def strStarts (s pre : String) : Bool :=
  listPref pre.data s.data

/-- Split a character list at every `'/'` (the separator parsing done by
`pathlib.PurePosixPath`). -/
def splitSlash : List Char → List (List Char)
  | [] => [[]]
  | c :: cs =>
    if c == '/' then [] :: splitSlash cs
    else
      match splitSlash cs with
      | [] => [[c]]
      | h :: t => (c :: h) :: t

/-- Model of `pathlib.Path(p).name`: the final path component.  Parsing drops empty
and `.` components when parsing; the name is the last remaining component
(empty when none remains, e.g. for `"/"` or `"."`). -/
def fileName (p : String) : String :=
  ⟨((splitSlash p.data).filter fun c => c != [] && c != ['.']).getLastD []⟩

/-- Model of `str(pathlib.Path(s).as_posix())`: collapse repeated slashes and `.`
components and re-join with `/`, keeping a root slash (a double leading
slash is preserved by POSIX path rules, three or more collapse to one); the
empty path renders as `"."`. -/
def posixNorm (s : String) : String :=
  let parts := (splitSlash s.data).filter fun c => c != [] && c != ['.']
  let root : List Char :=
    if strStarts s "//" && !(strStarts s "///") then ['/', '/']
    else if strStarts s "/" then ['/'] else []
  if root = [] && parts = [] then "."
  else ⟨root ++ (parts.intersperse ['/']).flatten⟩

/-- Left-to-right non-overlapping replacement scan, with fuel bounding the
number of steps (each step consumes at least one character when the pattern
is non-empty, so fuel = input length suffices). -/
def replaceGo (pat rep : List Char) : Nat → List Char → List Char
  | 0, s => s
  | _ + 1, [] => []
  | fuel + 1, c :: cs =>
    if listPref pat (c :: cs) then rep ++ replaceGo pat rep fuel ((c :: cs).drop pat.length)
    else c :: replaceGo pat rep fuel cs

/-- The Python `s.replace(pat, rep)` operation for a non-empty pattern (the only use in
the source has the literal patterns `"&nbsp;"` and `"&amp;"`). -/
def strReplace (s pat rep : String) : String :=
  if pat.data = [] then s
  else ⟨replaceGo pat.data rep.data s.data.length s.data⟩

/-- The entity decoding applied to every exported line
(replace every `&nbsp;` by a space, then every `&amp;` by `&`). -/
def cleanPath (p : String) : String :=
  strReplace (strReplace p "&nbsp;" " ") "&amp;" "&"

/-- The mutable session state of `MusicPlaylistManager` (fields that only
drive terminal rendering are omitted). -/
structure MState where
  music_files : List String
  selected_files : Finset Nat
  current_index : Nat
  page_size : Nat
  current_page : Nat
  search_mode : Bool
  search_keyword : String
  filtered_files : List Nat
  append_mode : Bool
  existing_playlist : Finset String
  target_playlist_file : Option String
  deriving DecidableEq

/-- The state right after `__init__` and `scan_music_files` produced
`files` with page size `ps`. -/
def initState (files : List String) (ps : Nat) : MState :=
  { music_files := files
    selected_files := ∅
    current_index := 0
    page_size := ps
    current_page := 0
    search_mode := false
    search_keyword := ""
    filtered_files := []
    append_mode := false
    existing_playlist := ∅
    target_playlist_file := none }

/-- Embedding of `MusicPlaylistManager.search_music`. -/
def search_music (st : MState) (keyword : String) : MState :=
  if strTrim keyword = "" then
    { st with search_mode := false, search_keyword := "", filtered_files := []
              current_index := 0, current_page := 0 }
  else
    let kw := strLower (strTrim keyword)
    let filtered := (List.range st.music_files.length).filter fun i =>
      strContains (strLower (fileName (st.music_files.getD i ""))) kw
    { st with search_keyword := kw, filtered_files := filtered
              search_mode := true, current_index := 0, current_page := 0 }

/-- Embedding of `MusicPlaylistManager.clear_search`. -/
def clear_search (st : MState) : MState :=
  { st with search_mode := false, search_keyword := "", filtered_files := []
            current_index := 0, current_page := 0 }

/-- Embedding of `MusicPlaylistManager.search_input`, the `/`-key flow.  The keyword typed
at the prompt is stripped; an empty keyword cancels, a keyword matching
nothing is auto-cleared back to normal mode. -/
def search_input (st : MState) (keyword : String) : MState :=
  let kw := strTrim keyword
  if kw ≠ "" then
    let st' := search_music st kw
    if 0 < st'.filtered_files.length then st' else clear_search st'
  else st

/-- Embedding of `MusicPlaylistManager.get_current_display_files`: the active index
sequence. -/
def get_current_display_files (st : MState) : List Nat :=
  if st.search_mode then st.filtered_files
  else List.range st.music_files.length

/-- Length of the active sequence. -/
def activeLen (st : MState) : Nat :=
  if st.search_mode then st.filtered_files.length else st.music_files.length

/-- The quantity `total_pages` as computed inline in `handle_input`:
`(total + page_size - 1) // page_size` over the active sequence. -/
def totalPagesAt (st : MState) : Nat :=
  (activeLen st + st.page_size - 1) / st.page_size

/-- Embedding of `MusicPlaylistManager.load_existing_playlist`: `fileExists`
stands for `Path(playlist_file).exists()` and `lines` for the lines of the
target file (each is then stripped like the Python `line.strip()`). -/
def load_existing_playlist (st : MState) (fileExists : Bool) (lines : List String)
    (fname : String) : Bool × MState :=
  if !fileExists then (false, st)
  else
    let ep := lines.foldl (fun acc l =>
      let t := strTrim l
      if t != "" && !(strStarts t "#") then insert (posixNorm t) acc else acc)
      (∅ : Finset String)
    (true, { st with existing_playlist := ep
                     target_playlist_file := some fname
                     append_mode := true })

/-- Embedding of `MusicPlaylistManager.is_song_in_playlist`. -/
def is_song_in_playlist (st : MState) (fp : String) : Bool :=
  if !st.append_mode then false
  else decide (posixNorm fp ∈ st.existing_playlist)

/-- One key event of the interactive loop (`handle_input`).  `slash` carries
the keyword typed at the search prompt; `loadList` carries the outcome of the
playlist chooser opened by the `a` key (whether the chosen file exists, its
lines, and its name). -/
inductive MKey where
  | space
  | up
  | down
  | enter
  | pageUp
  | pageDown
  | left
  | right
  | esc
  | slash (keyword : String)
  | loadList (fileExists : Bool) (lines : List String) (fname : String)
  deriving DecidableEq

/-- One iteration of `MusicPlaylistManager.handle_input` on a non-terminating
key (q/s exit the loop and are not state transitions of the browsing
session).  In the `enter` case the source evaluates `% total_pages`, which
raises in Python when the active sequence is empty (`total_pages = 0`);
every claim about `enter` assumes a non-empty active sequence, where `Nat`
`%` agrees with Python. -/
def handle_key (st : MState) (k : MKey) : MState :=
  match k with
  | .space =>
    if st.search_mode then
      if st.current_index < st.filtered_files.length then
        let real := st.filtered_files.getD st.current_index 0
        if real ∈ st.selected_files then
          { st with selected_files := st.selected_files.erase real }
        else
          { st with selected_files := insert real st.selected_files }
      else st
    else
      if st.current_index ∈ st.selected_files then
        { st with selected_files := st.selected_files.erase st.current_index }
      else
        { st with selected_files := insert st.current_index st.selected_files }
  | .up =>
    if 0 < st.current_index then
      let ci := st.current_index - 1
      if ci < st.current_page * st.page_size then
        { st with current_index := ci, current_page := st.current_page - 1 }
      else
        { st with current_index := ci }
    else st
  | .down =>
    let maxIndex := (if st.search_mode then st.filtered_files.length
                     else st.music_files.length) - 1
    if st.current_index < maxIndex then
      let ci := st.current_index + 1
      if (st.current_page + 1) * st.page_size ≤ ci then
        { st with current_index := ci
                  current_page := min (totalPagesAt st - 1) (st.current_page + 1) }
      else
        { st with current_index := ci }
    else st
  | .enter =>
    let np := (st.current_page + 1) % totalPagesAt st
    { st with current_page := np, current_index := np * st.page_size }
  | .pageUp =>
    if 0 < st.current_page then
      let np := st.current_page - 1
      { st with current_page := np, current_index := np * st.page_size }
    else st
  | .pageDown =>
    if st.current_page < totalPagesAt st - 1 then
      let np := st.current_page + 1
      { st with current_page := np, current_index := np * st.page_size }
    else st
  | .left =>
    if 0 < st.current_page then
      let np := st.current_page - 1
      { st with current_page := np, current_index := np * st.page_size }
    else st
  | .right =>
    if st.current_page < totalPagesAt st - 1 then
      let np := st.current_page + 1
      { st with current_page := np, current_index := np * st.page_size }
    else st
  | .esc => if st.search_mode then clear_search st else st
  | .slash kw => search_input st kw
  | .loadList ex lines fname =>
    if st.search_mode then st else (load_existing_playlist st ex lines fname).2

/-- Run a sequence of key events. -/
def run (st : MState) (es : List MKey) : MState :=
  es.foldl handle_key st

/-- States reachable from a freshly scanned session. -/
def Reachable (files : List String) (ps : Nat) (st : MState) : Prop :=
  ∃ es : List MKey, run (initState files ps) es = st

/-- The blocking inputs consumed by `save_playlist`: the y/N confirmation of
the append flow, the playlist name typed in create mode (already stripped by
`input().strip()` in the source, modelled by trimming here), and the current
content of the append target file as lines. -/
structure SaveEnv where
  confirm : Bool
  playlist_name : String
  target_lines : List String
  deriving DecidableEq

/-- Outcome of `save_playlist`.  The source signals all failures by
returning `False` after printing a message; the constructors keep the
distinct messages apart.  `createdFile` / `appendedFile` carry the full
content of the written file as lines. -/
inductive SaveResult where
  | noSelection
  | noNewTracks
  | notConfirmed
  | createdFile (fname : String) (lines : List String)
  | appendedFile (added : Nat) (skipped : Nat) (newContent : List String)
  deriving DecidableEq

/-- The ascending list `sorted(self.selected_files)`. -/
def sortedSelection (st : MState) : List Nat :=
  st.selected_files.sort (· ≤ ·)

/-- The append-mode partition loop of `save_playlist`: walks the sorted
selection accumulating `new_songs` and `duplicate_count`. -/
def appendScan (st : MState) : List String × Nat :=
  (sortedSelection st).foldl
    (fun acc idx =>
      let fp := st.music_files.getD idx ""
      if is_song_in_playlist st fp then (acc.1, acc.2 + 1)
      else (acc.1 ++ [fp], acc.2))
    ([], 0)

/-- Embedding of `MusicPlaylistManager.save_playlist`.  File writes are
modelled on line lists: create mode produces the lines of the new file,
append mode opens the target in append mode so the result is the old lines followed by the new
ones.  The state component is returned unchanged — the source mutates no
session field in this method. -/
def save_playlist (st : MState) (env : SaveEnv) : SaveResult × MState :=
  if st.selected_files = ∅ then (.noSelection, st)
  else if st.append_mode then
    let scan := appendScan st
    let new_songs := scan.1
    let duplicate_count := scan.2
    if new_songs = [] then (.noNewTracks, st)
    else if !env.confirm then (.notConfirmed, st)
    else
      (.appendedFile new_songs.length duplicate_count
        (env.target_lines ++ new_songs.map cleanPath), st)
  else
    let name0 := strTrim env.playlist_name
    let name1 := if name0 = "" then "playlist" else name0
    let name2 :=
      strTrim ⟨name1.data.filter fun c =>
        c.isAlphanum || c == ' ' || c == '-' || c == '_'⟩
    let lines :=
      (sortedSelection st).foldl
        (fun acc idx => acc ++ [cleanPath (st.music_files.getD idx "")])
        ["#EXTM3U"]
    (.createdFile (name2 ++ ".m3u") lines, st)

/-! ## Helper lemmas -/

theorem foldl_append_map {α : Type} (f : α → String) (l : List α) (init : List String) :
    l.foldl (fun acc i => acc ++ [f i]) init = init ++ l.map f := by
  induction l generalizing init with
  | nil => simp
  | cons a t ih => simp [ih]

theorem appendScan_eq (st : MState) :
    appendScan st =
      (((sortedSelection st).map fun i => st.music_files.getD i "").filter
          (fun fp => !(is_song_in_playlist st fp)),
        ((sortedSelection st).map fun i => st.music_files.getD i "").countP
          (fun fp => is_song_in_playlist st fp)) := by
  unfold appendScan
  generalize sortedSelection st = l
  suffices h : ∀ (acc : List String) (c : Nat),
      l.foldl (fun acc idx =>
        let fp := st.music_files.getD idx ""
        if is_song_in_playlist st fp then (acc.1, acc.2 + 1)
        else (acc.1 ++ [fp], acc.2)) (acc, c) =
      (acc ++ (l.map fun i => st.music_files.getD i "").filter
          (fun fp => !(is_song_in_playlist st fp)),
        c + (l.map fun i => st.music_files.getD i "").countP
          (fun fp => is_song_in_playlist st fp)) by
    simpa using h [] 0
  induction l with
  | nil => intro acc c; simp
  | cons a t ih =>
    intro acc c
    by_cases h : is_song_in_playlist st (st.music_files.getD a "") = true <;>
      simp only [List.foldl_cons, List.map_cons, List.filter_cons, List.countP_cons, h,
        if_true, if_false, ih, Bool.not_true, Bool.not_false, Bool.false_eq_true,
        Prod.mk.injEq, List.append_assoc, List.singleton_append] <;>
      constructor <;> simp [h] <;> omega

theorem sortedSelection_pair (st : MState) (h : st.selected_files = {0, 1}) :
    sortedSelection st = [0, 1] := by
  unfold sortedSelection
  rw [h]
  have hs := Finset.sort_insert (α := Nat) (· ≤ ·)
    (show ∀ b ∈ ({1} : Finset Nat), 0 ≤ b by decide) (by decide)
  rw [hs, Finset.sort_singleton]

theorem mem_playlist_fold (lines : List String) (acc : Finset String) (q : String) :
    (q ∈ lines.foldl (fun acc l =>
        if strTrim l != "" && !(strStarts (strTrim l) "#")
        then insert (posixNorm (strTrim l)) acc else acc) acc) ↔
      q ∈ acc ∨ ∃ l ∈ lines, strTrim l ≠ "" ∧ strStarts (strTrim l) "#" = false
        ∧ posixNorm (strTrim l) = q := by
  induction lines generalizing acc with
  | nil => simp
  | cons a t ih =>
    simp only [List.foldl_cons]
    rw [ih]
    by_cases h1 : (strTrim a != "" && !(strStarts (strTrim a) "#")) = true
    · simp only [h1, if_pos rfl, Finset.mem_insert]
      simp only [Bool.and_eq_true, bne_iff_ne, Bool.not_eq_eq_eq_not, Bool.not_true] at h1
      simp [List.mem_cons, h1.1, h1.2]
      tauto
    · rw [if_neg h1]
      simp only [Bool.and_eq_true, bne_iff_ne, Bool.not_eq_eq_eq_not, Bool.not_true,
        not_and] at h1
      simp only [List.mem_cons]
      constructor
      · rintro (hq | ⟨l, hl, hrest⟩)
        · exact Or.inl hq
        · exact Or.inr ⟨l, Or.inr hl, hrest⟩
      · rintro (hq | ⟨l, (rfl | hl), h2, h3, h4⟩)
        · exact Or.inl hq
        · exact absurd (h1 h2) (by simp [h3])
        · exact Or.inr ⟨l, hl, h2, h3, h4⟩

/-! ## Claim theorems: exporter and membership index -/

/-- C10: invoking save with an empty selection, in either mode, returns the
no-selection failure, writes or touches no file, and leaves the whole
session state unchanged. -/
theorem save_empty_selection_noop (st : MState) (env : SaveEnv)
    (h : st.selected_files = ∅) :
    save_playlist st env = (SaveResult.noSelection, st) := by
  simp [save_playlist, h]

/-- Witness for `save_empty_selection_noop`: a fresh session has an empty
selection, and saving is a failing no-op there. -/
theorem save_empty_selection_noop_witness :
    save_playlist (initState ["A/b.mp3"] 20) ⟨true, "pl", []⟩ =
      (SaveResult.noSelection, initState ["A/b.mp3"] 20) :=
  save_empty_selection_noop (initState ["A/b.mp3"] 20) ⟨true, "pl", []⟩ rfl

/-- C4: with a non-empty selection in create mode the exported file is the
`#EXTM3U` header line followed by exactly one line per selected track in
ascending catalog-index order, each line being the stored path with every
`&nbsp;` occurrence replaced by a space and then every `&amp;` occurrence
replaced by `&`. -/
theorem create_export_lines (st : MState) (env : SaveEnv)
    (hmode : st.append_mode = false) (hsel : st.selected_files ≠ ∅) :
    ∃ fname, (save_playlist st env).1 =
      SaveResult.createdFile fname
        ("#EXTM3U" :: (sortedSelection st).map fun i =>
          strReplace (strReplace (st.music_files.getD i "") "&nbsp;" " ") "&amp;" "&") := by
  simp only [save_playlist, hmode, if_neg hsel, Bool.false_eq_true, if_false]
  rw [foldl_append_map (fun i => cleanPath (st.music_files.getD i ""))]
  exact ⟨_, rfl⟩

/-- The create-mode session of the round-trip example: catalog
`["A/b.mp3", "A/c&amp;d.mp3"]`, both tracks selected. -/
def exCreate : MState :=
  { initState ["A/b.mp3", "A/c&amp;d.mp3"] 20 with selected_files := {0, 1} }

/-- Witness for `create_export_lines`: the first line of the example file is
`#EXTM3U`, its second `A/b.mp3` and its third `A/c&d.mp3` (entity
un-escaped). -/
theorem create_export_lines_witness :
    ∃ fname, (save_playlist exCreate ⟨true, "pl", []⟩).1 =
      SaveResult.createdFile fname ["#EXTM3U", "A/b.mp3", "A/c&d.mp3"] := by
  obtain ⟨f, hf⟩ := create_export_lines exCreate ⟨true, "pl", []⟩ rfl (by decide)
  refine ⟨f, ?_⟩
  rw [hf, sortedSelection_pair exCreate rfl]
  have hmap : ([0, 1].map fun i =>
      strReplace (strReplace (exCreate.music_files.getD i "") "&nbsp;" " ") "&amp;" "&") =
      ["A/b.mp3", "A/c&d.mp3"] := by decide
  rw [hmap]

/-- C5: with a non-empty selection in append mode (and the user confirming),
the exporter partitions the ascending-ordered selection by membership in the
loaded index: if every selected track is a member it reports no new tracks
and the file content is untouched; otherwise exactly the non-member tracks
are appended, entity-decoded, after the existing lines, and the added and
skipped-duplicate counts are reported. -/
theorem append_export_partition (st : MState) (env : SaveEnv)
    (hmode : st.append_mode = true) (hsel : st.selected_files ≠ ∅)
    (hconf : env.confirm = true) :
    ((((sortedSelection st).map fun i => st.music_files.getD i "").filter
        (fun fp => !(is_song_in_playlist st fp)) = [] →
      (save_playlist st env).1 = SaveResult.noNewTracks)
    ∧ ((((sortedSelection st).map fun i => st.music_files.getD i "").filter
        (fun fp => !(is_song_in_playlist st fp))) ≠ [] →
      (save_playlist st env).1 =
        SaveResult.appendedFile
          ((((sortedSelection st).map fun i => st.music_files.getD i "").filter
            (fun fp => !(is_song_in_playlist st fp))).length)
          (((sortedSelection st).map fun i => st.music_files.getD i "").countP
            (fun fp => is_song_in_playlist st fp))
          (env.target_lines ++
            (((sortedSelection st).map fun i => st.music_files.getD i "").filter
              (fun fp => !(is_song_in_playlist st fp))).map cleanPath))) := by
  have hred : save_playlist st env =
      (if (appendScan st).1 = [] then (SaveResult.noNewTracks, st)
       else if !env.confirm then (SaveResult.notConfirmed, st)
       else (SaveResult.appendedFile (appendScan st).1.length (appendScan st).2
          (env.target_lines ++ (appendScan st).1.map cleanPath), st)) := by
    simp only [save_playlist, hmode, if_neg hsel, if_true]
  rw [appendScan_eq] at hred
  simp only [Prod.fst, Prod.snd] at hred
  constructor
  · intro hempty
    rw [hred, if_pos hempty]
  · intro hne
    rw [hred, if_neg hne, hconf]
    simp only [Bool.not_true, Bool.false_eq_true, if_false]

/-- The append-mode session of the worked example: catalog
`["A/b.mp3", "A/c.mp3"]`, both selected, membership index `{"A/b.mp3"}`. -/
def exAppend : MState :=
  { initState ["A/b.mp3", "A/c.mp3"] 20 with
      selected_files := {0, 1}
      append_mode := true
      existing_playlist := {"A/b.mp3"}
      target_playlist_file := some "pl.m3u" }

/-- Witness for `append_export_partition`: only `A/c.mp3` is appended, one
duplicate is skipped, and the existing lines survive unchanged in front. -/
theorem append_export_partition_witness :
    (save_playlist exAppend ⟨true, "", ["#EXTM3U", "A/b.mp3"]⟩).1 =
      SaveResult.appendedFile 1 1 ["#EXTM3U", "A/b.mp3", "A/c.mp3"] := by
  have h := (append_export_partition exAppend ⟨true, "", ["#EXTM3U", "A/b.mp3"]⟩
    rfl (by decide) rfl).2
  rw [sortedSelection_pair exAppend rfl] at h
  have h2 := h (by decide)
  rw [h2]
  decide

/-- C9: loading a membership index from an existing playlist file succeeds
and yields exactly the normalized forms of the lines that are non-empty
after stripping and do not start with `#`; loading a missing file fails and
changes nothing; and the membership query is constantly false in a
non-append session. -/
theorem membership_index_load (st : MState) (lines : List String) (fname p : String) :
    (load_existing_playlist st false lines fname = (false, st))
    ∧ ((load_existing_playlist st true lines fname).1 = true)
    ∧ (∀ q, q ∈ (load_existing_playlist st true lines fname).2.existing_playlist ↔
        ∃ l ∈ lines, strTrim l ≠ "" ∧ strStarts (strTrim l) "#" = false
          ∧ posixNorm (strTrim l) = q)
    ∧ (is_song_in_playlist { st with append_mode := false } p = false) := by
  refine ⟨by simp [load_existing_playlist], by simp [load_existing_playlist], ?_, ?_⟩
  · intro q
    simp only [load_existing_playlist, Bool.not_true, Bool.false_eq_true, if_false]
    rw [mem_playlist_fold]
    simp
  · simp [is_song_in_playlist]

/-! ## Claim theorems: search filter -/

theorem listPref_iff (a b : List Char) : listPref a b = true ↔ ∃ t, b = a ++ t := by
  induction a generalizing b with
  | nil => simp [listPref]
  | cons c cs ih =>
    cases b with
    | nil => simp [listPref]
    | cons d ds =>
      simp only [listPref, Bool.and_eq_true, beq_iff_eq, ih]
      constructor
      · rintro ⟨rfl, t, rfl⟩
        exact ⟨t, rfl⟩
      · rintro ⟨t, h⟩
        rw [List.cons_append] at h
        injection h with h1 h2
        exact ⟨h1.symm, t, h2⟩

theorem strContains_iff (hay needle : String) :
    strContains hay needle = true ↔ ∃ u v : List Char, hay.data = u ++ needle.data ++ v := by
  unfold strContains
  rw [List.any_eq_true]
  constructor
  · rintro ⟨i, _, hp⟩
    obtain ⟨t, ht⟩ := (listPref_iff _ _).1 hp
    refine ⟨hay.data.take i, t, ?_⟩
    conv_lhs => rw [← List.take_append_drop i hay.data]
    rw [ht, List.append_assoc]
  · rintro ⟨u, v, huv⟩
    have hlen : u.length ≤ hay.data.length := by
      have := congrArg List.length huv
      simp only [List.length_append] at this
      omega
    refine ⟨u.length, by rw [List.mem_range]; omega, ?_⟩
    rw [listPref_iff]
    refine ⟨v, ?_⟩
    rw [huv, List.append_assoc, List.drop_left]

/-- C8: applied with a keyword that is non-empty after stripping, the search
filter produces exactly the ascending list of catalog indices whose display
name (final path component) contains the lowercased stripped keyword as a
substring, and marks the filter active; applied with a whitespace-only
keyword it marks the filter inactive, so the active sequence is the full
catalog range rather than an empty result.  The last conjunct pins down the
substring semantics of the match. -/
theorem search_filter_spec (st : MState) (kw : String) :
    (strTrim kw = "" →
      (search_music st kw).search_mode = false
      ∧ get_current_display_files (search_music st kw) = List.range st.music_files.length)
    ∧ (strTrim kw ≠ "" →
      (search_music st kw).search_mode = true
      ∧ List.Pairwise (· < ·) (search_music st kw).filtered_files
      ∧ (∀ i, i ∈ (search_music st kw).filtered_files ↔
          i < st.music_files.length ∧
          strContains (strLower (fileName (st.music_files.getD i "")))
            (strLower (strTrim kw)) = true))
    ∧ (∀ hay needle : String, strContains hay needle = true ↔
        ∃ u v : List Char, hay.data = u ++ needle.data ++ v) := by
  refine ⟨?_, ?_, fun hay needle => strContains_iff hay needle⟩
  · intro h
    simp [search_music, h, get_current_display_files]
  · intro h
    refine ⟨by simp [search_music, h], ?_, ?_⟩
    · simp only [search_music, if_neg h]
      exact (List.pairwise_lt_range _).sublist (List.filter_sublist _)
    · intro i
      simp only [search_music, if_neg h]
      rw [List.mem_filter, List.mem_range]

/-! ## Claim theorems: selection parity -/

/-- The catalog index a space keypress toggles in a given state (`none` when
the cursor is beyond the filtered list, where the source does nothing). -/
def toggleTarget (st : MState) : Option Nat :=
  if st.search_mode then
    if st.current_index < st.filtered_files.length then
      some (st.filtered_files.getD st.current_index 0)
    else none
  else some st.current_index

/-- The catalog index an event toggles (only space toggles). -/
def eventTarget (st : MState) (e : MKey) : Option Nat :=
  match e with
  | .space => toggleTarget st
  | _ => none

/-- Number of toggle events applied to index `i` along the trajectory of a
key sequence. -/
def toggleCount : MState → List MKey → Nat → Nat
  | _, [], _ => 0
  | st, e :: rest, i =>
    (if eventTarget st e = some i then 1 else 0) + toggleCount (handle_key st e) rest i

theorem mem_selToggle (sel : Finset Nat) (j i : Nat) :
    (i ∈ (if j ∈ sel then sel.erase j else insert j sel)) ↔ Xor' (j = i) (i ∈ sel) := by
  by_cases hj : j ∈ sel <;> by_cases hij : j = i
  · subst hij
    simp [hj, Xor']
  · have hij' : i ≠ j := fun h => hij h.symm
    simp [hj, Finset.mem_erase, Xor', hij, hij']
  · subst hij
    simp [hj, Xor']
  · have hij' : i ≠ j := fun h => hij h.symm
    simp [hj, Finset.mem_insert, Xor', hij, hij']

theorem handle_key_space_selected (st : MState) :
    (handle_key st MKey.space).selected_files =
      match toggleTarget st with
      | none => st.selected_files
      | some j => if j ∈ st.selected_files then st.selected_files.erase j
                  else insert j st.selected_files := by
  by_cases hs : st.search_mode = true
  · by_cases hlt : st.current_index < st.filtered_files.length
    · simp only [handle_key, toggleTarget, hs, hlt, if_true]
      split <;> rfl
    · simp only [handle_key, toggleTarget, hs, hlt, if_true, if_false]
  · simp only [handle_key, toggleTarget, hs, Bool.false_eq_true, if_false]
    split <;> rfl

theorem selected_handle_key (st : MState) (e : MKey) (i : Nat) :
    (i ∈ (handle_key st e).selected_files ↔
      Xor' (eventTarget st e = some i) (i ∈ st.selected_files)) := by
  cases e with
  | space =>
    rw [handle_key_space_selected]
    show _ ↔ Xor' (toggleTarget st = some i) _
    cases htt : toggleTarget st with
    | none => simp [Xor']
    | some j =>
      rw [mem_selToggle]
      simp [Xor', Option.some.injEq]
  | up =>
    have h : (handle_key st MKey.up).selected_files = st.selected_files := by
      simp only [handle_key]
      split_ifs <;> rfl
    rw [h]; simp [eventTarget, Xor']
  | down =>
    have h : (handle_key st MKey.down).selected_files = st.selected_files := by
      simp only [handle_key]
      split_ifs <;> rfl
    rw [h]; simp [eventTarget, Xor']
  | enter =>
    have h : (handle_key st MKey.enter).selected_files = st.selected_files := rfl
    rw [h]; simp [eventTarget, Xor']
  | pageUp =>
    have h : (handle_key st MKey.pageUp).selected_files = st.selected_files := by
      simp only [handle_key]
      split_ifs <;> rfl
    rw [h]; simp [eventTarget, Xor']
  | pageDown =>
    have h : (handle_key st MKey.pageDown).selected_files = st.selected_files := by
      simp only [handle_key]
      split_ifs <;> rfl
    rw [h]; simp [eventTarget, Xor']
  | left =>
    have h : (handle_key st MKey.left).selected_files = st.selected_files := by
      simp only [handle_key]
      split_ifs <;> rfl
    rw [h]; simp [eventTarget, Xor']
  | right =>
    have h : (handle_key st MKey.right).selected_files = st.selected_files := by
      simp only [handle_key]
      split_ifs <;> rfl
    rw [h]; simp [eventTarget, Xor']
  | esc =>
    have h : (handle_key st MKey.esc).selected_files = st.selected_files := by
      simp only [handle_key, clear_search]
      split_ifs <;> rfl
    rw [h]; simp [eventTarget, Xor']
  | slash kw =>
    have h : (handle_key st (MKey.slash kw)).selected_files = st.selected_files := by
      simp only [handle_key, search_input, search_music, clear_search]
      split_ifs <;> rfl
    rw [h]; simp [eventTarget, Xor']
  | loadList ex lines fname =>
    have h : (handle_key st (MKey.loadList ex lines fname)).selected_files
        = st.selected_files := by
      simp only [handle_key, load_existing_playlist]
      split_ifs <;> rfl
    rw [h]; simp [eventTarget, Xor']

theorem run_selected_parity (st : MState) (es : List MKey) (i : Nat) :
    (i ∈ (run st es).selected_files ↔
      Xor' (toggleCount st es i % 2 = 1) (i ∈ st.selected_files)) := by
  induction es generalizing st with
  | nil => simp [run, toggleCount, Xor']
  | cons e rest ih =>
    show i ∈ (run (handle_key st e) rest).selected_files ↔ _
    rw [ih, selected_handle_key]
    by_cases hb : eventTarget st e = some i
    · simp only [toggleCount, hb, if_pos rfl, if_true]
      have h2 : (1 + toggleCount (handle_key st e) rest i) % 2 = 1 ↔
          ¬(toggleCount (handle_key st e) rest i % 2 = 1) := by omega
      rw [h2]
      simp only [Xor', hb]
      tauto
    · simp only [toggleCount]
      rw [if_neg hb]
      simp only [Nat.zero_add, Xor', hb]
      tauto

/-- C1: starting from an empty selection, after any interleaving of search,
clear-search, page, cursor and toggle events, a catalog index is selected
exactly when the number of toggle events applied to it is odd; and the
search-entry and clear-search transitions never change the selection set of
any state. -/
theorem selection_toggle_parity (st : MState) (es : List MKey) (i : Nat)
    (h : st.selected_files = ∅) :
    (i ∈ (run st es).selected_files ↔ toggleCount st es i % 2 = 1)
    ∧ (∀ s : MState, ∀ kw,
        (handle_key s (MKey.slash kw)).selected_files = s.selected_files
        ∧ (handle_key s MKey.esc).selected_files = s.selected_files) := by
  constructor
  · rw [run_selected_parity, h]
    simp [Xor']
  · intro s kw
    constructor
    · simp only [handle_key, search_input, search_music, clear_search]
      split_ifs <;> rfl
    · simp only [handle_key, clear_search]
      split_ifs <;> rfl

/-- Witness for `selection_toggle_parity`: three space presses on index 0 of
a fresh two-track session leave it selected (odd parity), interleaved with a
search that matches nothing. -/
theorem selection_toggle_parity_witness :
    ((0 ∈ (run (initState ["a.mp3", "b.mp3"] 20)
        [MKey.space, MKey.slash "zzz", MKey.space, MKey.space]).selected_files
      ↔ toggleCount (initState ["a.mp3", "b.mp3"] 20)
        [MKey.space, MKey.slash "zzz", MKey.space, MKey.space] 0 % 2 = 1)
    ∧ (∀ s : MState, ∀ kw,
        (handle_key s (MKey.slash kw)).selected_files = s.selected_files
        ∧ (handle_key s MKey.esc).selected_files = s.selected_files)) :=
  selection_toggle_parity (initState ["a.mp3", "b.mp3"] 20)
    [MKey.space, MKey.slash "zzz", MKey.space, MKey.space] 0 rfl

/-! ## View-state invariant -/

/-- The view-state invariant maintained by every `handle_input` iteration:
the cursor is inside the active sequence, the page is the page of the cursor, and
search mode always holds a non-empty filter result (the `search_input` flow
auto-clears empty results). -/
def Inv (st : MState) : Prop :=
  st.current_index < activeLen st
  ∧ st.current_page = st.current_index / st.page_size
  ∧ (st.search_mode = true → 0 < st.filtered_files.length)

theorem totalPages_formula (st : MState) (hps : 1 ≤ st.page_size)
    (hn : 0 < activeLen st) :
    totalPagesAt st = (activeLen st - 1) / st.page_size + 1 := by
  unfold totalPagesAt
  have h : activeLen st + st.page_size - 1 = (activeLen st - 1) + st.page_size := by omega
  rw [h, Nat.add_div_right _ (by omega)]

theorem div_window (ci ps : Nat) (hps : 1 ≤ ps) :
    (ci / ps) * ps ≤ ci ∧ ci < (ci / ps + 1) * ps := by
  have hd := Nat.div_add_mod ci ps
  have hm := Nat.mod_lt ci (show 0 < ps by omega)
  have hs : (ci / ps + 1) * ps = (ci / ps) * ps + ps := by
    rw [Nat.add_mul, Nat.one_mul]
  have hc : ps * (ci / ps) = (ci / ps) * ps := Nat.mul_comm _ _
  omega

theorem inv_of_view_eq (st st' : MState)
    (e1 : st'.current_index = st.current_index)
    (e2 : st'.current_page = st.current_page)
    (e3 : st'.page_size = st.page_size)
    (e4 : st'.search_mode = st.search_mode)
    (e5 : st'.filtered_files = st.filtered_files)
    (e6 : st'.music_files = st.music_files)
    (hinv : Inv st) : Inv st' := by
  unfold Inv activeLen at *
  rw [e1, e2, e3, e4, e5, e6]
  exact hinv

theorem inv_clear_search (s : MState) (hcat : s.music_files ≠ []) :
    Inv (clear_search s) := by
  refine ⟨?_, ?_, ?_⟩
  · show (0 : Nat) < activeLen (clear_search s)
    exact List.length_pos.mpr hcat
  · show (0 : Nat) = 0 / s.page_size
    rw [Nat.zero_div]
  · intro h
    exact absurd h (by simp [clear_search])

theorem inv_search_out (st : MState) (kw : String) (hcat : st.music_files ≠ [])
    (hlen : 0 < (search_music st kw).filtered_files.length) :
    Inv (search_music st kw) := by
  have hmpos : 0 < st.music_files.length := List.length_pos.mpr hcat
  unfold search_music at hlen ⊢
  split_ifs at hlen ⊢ with ht
  · exact ⟨by simpa [activeLen] using hmpos, by simp, by simp⟩
  · refine ⟨by simpa [activeLen] using hlen, by simp, fun _ => by simpa using hlen⟩

/-- A jump to the first cell of a valid page keeps the invariant. -/
theorem inv_jump (st : MState) (p : Nat) (hps : 1 ≤ st.page_size)
    (hnn : 0 < activeLen st)
    (hle : p ≤ (activeLen st - 1) / st.page_size)
    (h3 : st.search_mode = true → 0 < st.filtered_files.length) :
    Inv { st with current_page := p, current_index := p * st.page_size } := by
  have hmul : p * st.page_size ≤ activeLen st - 1 :=
    (Nat.le_div_iff_mul_le (by omega)).1 hle
  refine ⟨?_, ?_, ?_⟩
  · show p * st.page_size < activeLen st
    omega
  · show p = p * st.page_size / st.page_size
    symm
    apply Nat.div_eq_of_lt_le (Nat.le_refl _)
    have hsm : (p + 1) * st.page_size = p * st.page_size + st.page_size := by
      rw [Nat.add_mul, Nat.one_mul]
    omega
  · exact h3

theorem static_fields (st : MState) (e : MKey) :
    (handle_key st e).music_files = st.music_files
    ∧ (handle_key st e).page_size = st.page_size := by
  cases e <;> refine ⟨?_, ?_⟩ <;>
    simp only [handle_key, search_input, search_music, clear_search,
      load_existing_playlist] <;>
    (try split_ifs) <;> rfl

theorem cursor_event_static (st : MState) (e : MKey)
    (he : e = MKey.up ∨ e = MKey.down) :
    (handle_key st e).search_mode = st.search_mode
    ∧ (handle_key st e).filtered_files = st.filtered_files := by
  rcases he with rfl | rfl <;> refine ⟨?_, ?_⟩ <;>
    simp only [handle_key] <;> (try split_ifs) <;> rfl

/-- Every `handle_input` transition preserves the view-state invariant. -/
theorem inv_preserved (st : MState) (e : MKey) (hps : 1 ≤ st.page_size)
    (hcat : st.music_files ≠ []) (hinv : Inv st) : Inv (handle_key st e) := by
  obtain ⟨h1, h2, h3⟩ := hinv
  have hmpos : 0 < st.music_files.length := List.length_pos.mpr hcat
  have hnpos : 0 < activeLen st := by omega
  cases e with
  | space =>
    refine inv_of_view_eq st _ ?_ ?_ ?_ ?_ ?_ ?_ ⟨h1, h2, h3⟩ <;>
      simp only [handle_key] <;> (try split_ifs) <;> rfl
  | up =>
    by_cases h0 : 0 < st.current_index
    · have hw := div_window st.current_index st.page_size hps
      by_cases hb : st.current_index - 1 < st.current_page * st.page_size
      · have hkey : handle_key st MKey.up =
            { st with current_index := st.current_index - 1
                      current_page := st.current_page - 1 } := by
          simp only [handle_key, if_pos h0, if_pos hb]
        rw [hkey]
        have hci : st.current_index = st.current_page * st.page_size := by
          rw [h2] at hb ⊢
          omega
        have hz : st.current_page = 0 → st.current_page * st.page_size = 0 := by
          intro h; rw [h, Nat.zero_mul]
        have hpg : 0 < st.current_page := by
          by_contra hc
          push_neg at hc
          have : st.current_page = 0 := by omega
          have := hz this
          omega
        have e1 : (st.current_page - 1) * st.page_size
            = st.current_page * st.page_size - st.page_size := Nat.sub_one_mul _ _
        have e2 : st.page_size ≤ st.current_page * st.page_size :=
          Nat.le_mul_of_pos_left st.page_size hpg
        refine ⟨?_, ?_, ?_⟩
        · show st.current_index - 1 < activeLen st
          omega
        · show st.current_page - 1 = (st.current_index - 1) / st.page_size
          symm
          apply Nat.div_eq_of_lt_le
          · omega
          · have e3 : (st.current_page - 1 + 1) * st.page_size
                = (st.current_page - 1) * st.page_size + st.page_size := by
              rw [Nat.add_mul, Nat.one_mul]
            omega
        · exact h3
      · have hkey : handle_key st MKey.up =
            { st with current_index := st.current_index - 1 } := by
          simp only [handle_key, if_pos h0, if_neg hb]
        rw [hkey]
        refine ⟨?_, ?_, ?_⟩
        · show st.current_index - 1 < activeLen st
          omega
        · show st.current_page = (st.current_index - 1) / st.page_size
          rw [h2]
          symm
          apply Nat.div_eq_of_lt_le
          · rw [← h2]; omega
          · omega
        · exact h3
    · have hkey : handle_key st MKey.up = st := by
        simp only [handle_key, if_neg h0]
      rw [hkey]; exact ⟨h1, h2, h3⟩
  | down =>
    have hw := div_window st.current_index st.page_size hps
    by_cases hlt : st.current_index <
        (if st.search_mode then st.filtered_files.length else st.music_files.length) - 1
    · have hn : st.current_index + 1 < activeLen st := by
        have : (if st.search_mode then st.filtered_files.length
            else st.music_files.length) = activeLen st := rfl
        omega
      have hbridge : (st.current_page + 1) * st.page_size
          = (st.current_index / st.page_size + 1) * st.page_size := by rw [h2]
      by_cases hb : (st.current_page + 1) * st.page_size ≤ st.current_index + 1
      · have hkey : handle_key st MKey.down =
            { st with current_index := st.current_index + 1
                      current_page := min (totalPagesAt st - 1) (st.current_page + 1) } := by
          simp only [handle_key, if_pos hlt, if_pos hb]
        rw [hkey]
        have hci1 : st.current_index + 1 = (st.current_page + 1) * st.page_size := by
          omega
        have htp := totalPages_formula st hps hnpos
        have hle : st.current_page + 1 ≤ totalPagesAt st - 1 := by
          rw [htp, Nat.add_sub_cancel]
          apply (Nat.le_div_iff_mul_le (by omega)).2
          omega
        have hmin : min (totalPagesAt st - 1) (st.current_page + 1)
            = st.current_page + 1 := min_eq_right hle
        rw [hmin]
        refine ⟨?_, ?_, ?_⟩
        · show st.current_index + 1 < activeLen st
          exact hn
        · show st.current_page + 1 = (st.current_index + 1) / st.page_size
          symm
          apply Nat.div_eq_of_lt_le
          · omega
          · have e3 : (st.current_page + 1 + 1) * st.page_size
                = (st.current_page + 1) * st.page_size + st.page_size := by
              rw [Nat.add_mul, Nat.one_mul]
            omega
        · exact h3
      · have hkey : handle_key st MKey.down =
            { st with current_index := st.current_index + 1 } := by
          simp only [handle_key, if_pos hlt, if_neg hb]
        rw [hkey]
        refine ⟨?_, ?_, ?_⟩
        · show st.current_index + 1 < activeLen st
          exact hn
        · show st.current_page = (st.current_index + 1) / st.page_size
          symm
          apply Nat.div_eq_of_lt_le
          · have hbridge2 : st.current_page * st.page_size
                = st.current_index / st.page_size * st.page_size := by rw [h2]
            omega
          · omega
        · exact h3
    · have hkey : handle_key st MKey.down = st := by
        simp only [handle_key, if_neg hlt]
      rw [hkey]; exact ⟨h1, h2, h3⟩
  | enter =>
    have htp := totalPages_formula st hps hnpos
    have htpos : 0 < totalPagesAt st := by
      rw [htp]; exact Nat.succ_pos _
    have hkey : handle_key st MKey.enter =
        { st with
            current_page := (st.current_page + 1) % totalPagesAt st
            current_index := ((st.current_page + 1) % totalPagesAt st) * st.page_size } := by
      simp only [handle_key]
    rw [hkey]
    apply inv_jump st _ hps hnpos ?_ h3
    have hmod := Nat.mod_lt (st.current_page + 1) htpos
    have hlt' : (st.current_page + 1) % totalPagesAt st
        < (activeLen st - 1) / st.page_size + 1 := htp ▸ hmod
    exact Nat.lt_succ_iff.mp hlt'
  | pageUp =>
    by_cases hp : 0 < st.current_page
    · have hkey : handle_key st MKey.pageUp =
          { st with current_page := st.current_page - 1
                    current_index := (st.current_page - 1) * st.page_size } := by
        simp only [handle_key, if_pos hp]
      rw [hkey]
      apply inv_jump st _ hps hnpos ?_ h3
      have hci' : st.current_index ≤ activeLen st - 1 := by omega
      have hmono : st.current_index / st.page_size ≤ (activeLen st - 1) / st.page_size :=
        Nat.div_le_div_right hci'
      omega
    · have hkey : handle_key st MKey.pageUp = st := by
        simp only [handle_key, if_neg hp]
      rw [hkey]; exact ⟨h1, h2, h3⟩
  | pageDown =>
    by_cases hp : st.current_page < totalPagesAt st - 1
    · have hkey : handle_key st MKey.pageDown =
          { st with current_page := st.current_page + 1
                    current_index := (st.current_page + 1) * st.page_size } := by
        simp only [handle_key, if_pos hp]
      rw [hkey]
      apply inv_jump st _ hps hnpos ?_ h3
      have htp := totalPages_formula st hps hnpos
      omega
    · have hkey : handle_key st MKey.pageDown = st := by
        simp only [handle_key, if_neg hp]
      rw [hkey]; exact ⟨h1, h2, h3⟩
  | left =>
    by_cases hp : 0 < st.current_page
    · have hkey : handle_key st MKey.left =
          { st with current_page := st.current_page - 1
                    current_index := (st.current_page - 1) * st.page_size } := by
        simp only [handle_key, if_pos hp]
      rw [hkey]
      apply inv_jump st _ hps hnpos ?_ h3
      have hci' : st.current_index ≤ activeLen st - 1 := by omega
      have hmono : st.current_index / st.page_size ≤ (activeLen st - 1) / st.page_size :=
        Nat.div_le_div_right hci'
      omega
    · have hkey : handle_key st MKey.left = st := by
        simp only [handle_key, if_neg hp]
      rw [hkey]; exact ⟨h1, h2, h3⟩
  | right =>
    by_cases hp : st.current_page < totalPagesAt st - 1
    · have hkey : handle_key st MKey.right =
          { st with current_page := st.current_page + 1
                    current_index := (st.current_page + 1) * st.page_size } := by
        simp only [handle_key, if_pos hp]
      rw [hkey]
      apply inv_jump st _ hps hnpos ?_ h3
      have htp := totalPages_formula st hps hnpos
      omega
    · have hkey : handle_key st MKey.right = st := by
        simp only [handle_key, if_neg hp]
      rw [hkey]; exact ⟨h1, h2, h3⟩
  | esc =>
    by_cases hs : st.search_mode = true
    · have hkey : handle_key st MKey.esc = clear_search st := by
        simp only [handle_key, if_pos hs]
      rw [hkey]
      exact inv_clear_search st hcat
    · have hkey : handle_key st MKey.esc = st := by
        simp only [handle_key, if_neg hs]
      rw [hkey]; exact ⟨h1, h2, h3⟩
  | slash kw =>
    simp only [handle_key, search_input]
    split_ifs with hkw hlen
    · exact inv_search_out st (strTrim kw) hcat hlen
    · apply inv_clear_search
      have hm : (search_music st (strTrim kw)).music_files = st.music_files := by
        unfold search_music
        split_ifs <;> rfl
      rw [hm]; exact hcat
    · exact ⟨h1, h2, h3⟩
  | loadList ex lines fname =>
    refine inv_of_view_eq st _ ?_ ?_ ?_ ?_ ?_ ?_ ⟨h1, h2, h3⟩ <;>
      simp only [handle_key, load_existing_playlist] <;> (try split_ifs) <;> rfl

theorem inv_init (files : List String) (ps : Nat) (hcat : files ≠ []) :
    Inv (initState files ps) := by
  refine ⟨?_, ?_, ?_⟩
  · show 0 < files.length
    exact List.length_pos.mpr hcat
  · show (0 : Nat) = 0 / ps
    rw [Nat.zero_div]
  · intro h
    exact absurd h (by simp [initState])

theorem inv_run_aux (st : MState) (es : List MKey) (hps : 1 ≤ st.page_size)
    (hcat : st.music_files ≠ []) (hinv : Inv st) :
    Inv (run st es) ∧ (run st es).page_size = st.page_size
      ∧ (run st es).music_files = st.music_files := by
  induction es generalizing st with
  | nil => exact ⟨hinv, rfl, rfl⟩
  | cons e rest ih =>
    have hstat := static_fields st e
    have hrec := ih (handle_key st e) (by rw [hstat.2]; exact hps)
      (by rw [hstat.1]; exact hcat) (inv_preserved st e hps hcat hinv)
    exact ⟨hrec.1, hrec.2.1.trans hstat.2, hrec.2.2.trans hstat.1⟩

/-! ## Claim theorems: cursor bound, auto-page-follow, page keys, enter -/

/-- C2: from any reachable state of a session with a non-empty catalog and
positive page size, every single key transition leaves the cursor within
`[0, max 0 (|active sequence| - 1)]` — the active sequence being the
filtered index list in search mode and the full catalog range in normal
mode — including immediately after a mode switch that shrinks the active
sequence. -/
theorem cursor_bound_after_step (files : List String) (ps : Nat) (st : MState)
    (e : MKey) (hps : 1 ≤ ps) (hcat : files ≠ []) (hreach : Reachable files ps st) :
    (handle_key st e).current_index ≤ max 0 (activeLen (handle_key st e) - 1) := by
  obtain ⟨es, rfl⟩ := hreach
  obtain ⟨hinv, hps', hmf⟩ :=
    inv_run_aux (initState files ps) es hps hcat (inv_init files ps hcat)
  have hinv' := inv_preserved _ e (by rw [hps']; exact hps) (by rw [hmf]; exact hcat) hinv
  have h1 := hinv'.1
  rw [Nat.zero_max]
  omega

/-- Witness for `cursor_bound_after_step`: one down key on a fresh
single-track session. -/
theorem cursor_bound_after_step_witness :
    (handle_key (initState ["a.mp3"] 1) MKey.down).current_index
      ≤ max 0 (activeLen (handle_key (initState ["a.mp3"] 1) MKey.down) - 1) :=
  cursor_bound_after_step ["a.mp3"] 1 (initState ["a.mp3"] 1) MKey.down
    (by decide) (by decide) ⟨[], rfl⟩

theorem auto_page_follow_of_inv (st : MState) (e : MKey) (hps : 1 ≤ st.page_size)
    (hcat : st.music_files ≠ []) (hinv : Inv st)
    (he : e = MKey.up ∨ e = MKey.down) :
    ((handle_key st e).current_index < st.current_page * st.page_size
        ∨ (st.current_page + 1) * st.page_size ≤ (handle_key st e).current_index →
      (handle_key st e).current_page =
        min ((handle_key st e).current_index / st.page_size) (totalPagesAt st - 1))
    ∧ (st.current_page * st.page_size ≤ (handle_key st e).current_index
        ∧ (handle_key st e).current_index < (st.current_page + 1) * st.page_size →
      (handle_key st e).current_page = st.current_page) := by
  have hinv' := inv_preserved st e hps hcat hinv
  have hstat := cursor_event_static st e he
  have hstat2 := static_fields st e
  have hact : activeLen (handle_key st e) = activeLen st := by
    unfold activeLen
    rw [hstat.1, hstat.2, hstat2.1]
  obtain ⟨h1', h2', _⟩ := hinv'
  obtain ⟨h1, h2, h3⟩ := hinv
  rw [hstat2.2] at h2'
  have htp := totalPages_formula st hps (by omega)
  constructor
  · intro _
    rw [h2', htp, Nat.add_sub_cancel]
    have hlt : (handle_key st e).current_index < activeLen st := hact ▸ h1'
    have hmono : (handle_key st e).current_index / st.page_size
        ≤ (activeLen st - 1) / st.page_size :=
      Nat.div_le_div_right (by omega)
    exact (min_eq_left hmono).symm
  · intro hins
    rw [h2']
    exact Nat.div_eq_of_lt_le hins.1 hins.2

/-- C3: on every cursor-up / cursor-down transition from a reachable state,
when the new cursor lands outside the window
`[page*page_size, (page+1)*page_size)` the page is recomputed as
`cursor / page_size` clamped to `[0, totalPages-1]`, and otherwise the page
is unchanged. -/
theorem auto_page_follow (files : List String) (ps : Nat) (st : MState) (e : MKey)
    (hps : 1 ≤ ps) (hcat : files ≠ []) (hreach : Reachable files ps st)
    (he : e = MKey.up ∨ e = MKey.down) :
    ((handle_key st e).current_index < st.current_page * st.page_size
        ∨ (st.current_page + 1) * st.page_size ≤ (handle_key st e).current_index →
      (handle_key st e).current_page =
        min ((handle_key st e).current_index / st.page_size) (totalPagesAt st - 1))
    ∧ (st.current_page * st.page_size ≤ (handle_key st e).current_index
        ∧ (handle_key st e).current_index < (st.current_page + 1) * st.page_size →
      (handle_key st e).current_page = st.current_page) := by
  obtain ⟨es, rfl⟩ := hreach
  obtain ⟨hinv, hps', hmf⟩ :=
    inv_run_aux (initState files ps) es hps hcat (inv_init files ps hcat)
  exact auto_page_follow_of_inv _ e (by rw [hps']; exact hps)
    (by rw [hmf]; exact hcat) hinv he

/-- Witness for `auto_page_follow`: a down key from the first page of a
fresh two-track session with page size 1 crosses the page boundary and the
page follows the cursor. -/
theorem auto_page_follow_witness :
    (((handle_key (initState ["a.mp3", "b.mp3"] 1) MKey.down).current_index
        < (initState ["a.mp3", "b.mp3"] 1).current_page
          * (initState ["a.mp3", "b.mp3"] 1).page_size
      ∨ ((initState ["a.mp3", "b.mp3"] 1).current_page + 1)
          * (initState ["a.mp3", "b.mp3"] 1).page_size
        ≤ (handle_key (initState ["a.mp3", "b.mp3"] 1) MKey.down).current_index →
      (handle_key (initState ["a.mp3", "b.mp3"] 1) MKey.down).current_page =
        min ((handle_key (initState ["a.mp3", "b.mp3"] 1) MKey.down).current_index
          / (initState ["a.mp3", "b.mp3"] 1).page_size)
          (totalPagesAt (initState ["a.mp3", "b.mp3"] 1) - 1))
    ∧ ((initState ["a.mp3", "b.mp3"] 1).current_page
          * (initState ["a.mp3", "b.mp3"] 1).page_size
        ≤ (handle_key (initState ["a.mp3", "b.mp3"] 1) MKey.down).current_index
      ∧ (handle_key (initState ["a.mp3", "b.mp3"] 1) MKey.down).current_index
        < ((initState ["a.mp3", "b.mp3"] 1).current_page + 1)
          * (initState ["a.mp3", "b.mp3"] 1).page_size →
      (handle_key (initState ["a.mp3", "b.mp3"] 1) MKey.down).current_page =
        (initState ["a.mp3", "b.mp3"] 1).current_page)) :=
  auto_page_follow ["a.mp3", "b.mp3"] 1 (initState ["a.mp3", "b.mp3"] 1) MKey.down
    (by decide) (by decide) ⟨[], rfl⟩ (Or.inr rfl)

/-- C6 as stated is false on the code: in the reachable state obtained by one
down key (cursor 1, page 0, page size 2), the page-up key leaves the page at
0 by clamping but does NOT reset the cursor to `page * page_size = 0` — the
event is a complete no-op. -/
theorem page_nav_reset_cex :
    ¬((handle_key (run (initState ["a.mp3", "b.mp3"] 2) [MKey.down]) MKey.pageUp).current_index
      = (handle_key (run (initState ["a.mp3", "b.mp3"] 2) [MKey.down]) MKey.pageUp).current_page
        * (initState ["a.mp3", "b.mp3"] 2).page_size) := by
  decide

/-- C6 amended: a page-navigation key whose target page is in range moves to
it and resets the cursor to the first item of that page; when the target is
out of range (page-up/prev on the first page, page-down/next on the last)
the key is a complete no-op — page AND cursor keep their values, with no
cursor reset. -/
theorem page_nav_amended (st : MState) :
    (0 < st.current_page →
      (handle_key st MKey.pageUp).current_page = st.current_page - 1
      ∧ (handle_key st MKey.pageUp).current_index = (st.current_page - 1) * st.page_size
      ∧ handle_key st MKey.left = handle_key st MKey.pageUp)
    ∧ (st.current_page = 0 →
      handle_key st MKey.pageUp = st ∧ handle_key st MKey.left = st)
    ∧ (st.current_page < totalPagesAt st - 1 →
      (handle_key st MKey.pageDown).current_page = st.current_page + 1
      ∧ (handle_key st MKey.pageDown).current_index
          = (st.current_page + 1) * st.page_size
      ∧ handle_key st MKey.right = handle_key st MKey.pageDown)
    ∧ (totalPagesAt st - 1 ≤ st.current_page →
      handle_key st MKey.pageDown = st ∧ handle_key st MKey.right = st) := by
  refine ⟨?_, ?_, ?_, ?_⟩
  · intro h
    refine ⟨?_, ?_, ?_⟩ <;> simp only [handle_key, if_pos h]
  · intro h
    have h' : ¬0 < st.current_page := by omega
    constructor <;> (simp only [handle_key]; rw [if_neg h'])
  · intro h
    refine ⟨?_, ?_, ?_⟩ <;> simp only [handle_key, if_pos h]
  · intro h
    have h' : ¬st.current_page < totalPagesAt st - 1 := by omega
    constructor <;> (simp only [handle_key]; rw [if_neg h'])

/-- C7: with a non-empty active sequence and positive page size, the Enter
key sets the page to `(page + 1) % totalPages` — wrapping from the last page
back to page 0 — and the cursor to the first item of that page; cursor
movement, in contrast, never wraps (up at 0 and down at the end are
no-ops). -/
theorem enter_advance_wraps (st : MState) (hps : 1 ≤ st.page_size)
    (hne : 0 < activeLen st) :
    (handle_key st MKey.enter).current_page = (st.current_page + 1) % totalPagesAt st
    ∧ (handle_key st MKey.enter).current_index
        = ((st.current_page + 1) % totalPagesAt st) * st.page_size
    ∧ (st.current_page = totalPagesAt st - 1 →
        (handle_key st MKey.enter).current_page = 0)
    ∧ (st.current_index = 0 → handle_key st MKey.up = st)
    ∧ (activeLen st - 1 ≤ st.current_index → handle_key st MKey.down = st) := by
  have htp := totalPages_formula st hps hne
  have htpos : 0 < totalPagesAt st := by rw [htp]; exact Nat.succ_pos _
  refine ⟨rfl, rfl, ?_, ?_, ?_⟩
  · intro h
    show (st.current_page + 1) % totalPagesAt st = 0
    rw [h, Nat.sub_add_cancel htpos]
    exact Nat.mod_self _
  · intro h
    simp only [handle_key]
    rw [if_neg (by omega)]
  · intro h
    simp only [handle_key]
    rw [if_neg ?_]
    have hact : (if st.search_mode then st.filtered_files.length
        else st.music_files.length) = activeLen st := rfl
    omega

/-- Witness for `enter_advance_wraps`: fresh two-track session with page
size 1 (two pages); Enter moves to page 1, cursor 1. -/
theorem enter_advance_wraps_witness :
    ((handle_key (initState ["a.mp3", "b.mp3"] 1) MKey.enter).current_page
        = ((initState ["a.mp3", "b.mp3"] 1).current_page + 1)
          % totalPagesAt (initState ["a.mp3", "b.mp3"] 1)
    ∧ (handle_key (initState ["a.mp3", "b.mp3"] 1) MKey.enter).current_index
        = (((initState ["a.mp3", "b.mp3"] 1).current_page + 1)
          % totalPagesAt (initState ["a.mp3", "b.mp3"] 1))
          * (initState ["a.mp3", "b.mp3"] 1).page_size
    ∧ ((initState ["a.mp3", "b.mp3"] 1).current_page
          = totalPagesAt (initState ["a.mp3", "b.mp3"] 1) - 1 →
        (handle_key (initState ["a.mp3", "b.mp3"] 1) MKey.enter).current_page = 0)
    ∧ ((initState ["a.mp3", "b.mp3"] 1).current_index = 0 →
        handle_key (initState ["a.mp3", "b.mp3"] 1) MKey.up
          = initState ["a.mp3", "b.mp3"] 1)
    ∧ (activeLen (initState ["a.mp3", "b.mp3"] 1) - 1
          ≤ (initState ["a.mp3", "b.mp3"] 1).current_index →
        handle_key (initState ["a.mp3", "b.mp3"] 1) MKey.down
          = initState ["a.mp3", "b.mp3"] 1)) :=
  enter_advance_wraps (initState ["a.mp3", "b.mp3"] 1) (by decide) (by decide)

end M3uWeaver
